import Mathlib

set_option maxHeartbeats 1000000

/-! Shallow embedding of the descriptor-ring logic of the Atmel SAM GMAC
Ethernet driver (drivers/ethernet/eth_sam_gmac.c).

Machine words are modelled as Nat with explicit masking; the u32 arithmetic
the C code performs on frame lengths is modelled with explicit wrap-around
modulo 2^32 (add32 / sub32).  A struct net_buf is identified with its data
address (a Nat): the driver only ever compares and reposts buffer data
addresses.  Buffer-pool allocation results are supplied as oracle lists of
Option Nat (none = allocation failure, mirroring the K_NO_WAIT pool calls).
Cache-maintenance calls (dcache_invalidate / dcache_clean) and the __DMB
barrier have no effect on the sequential functional state and are not
modelled; hardware register writes (GMAC_NCR, GMAC_RBQB, ...) are likewise
outside the descriptor-ring state. -/

/-- Modelled from the spec: descriptor word layouts come from the private
header eth_sam_gmac_priv.h, which is not among the sources; the spec fixes
word A of an RX descriptor as the buffer address packed with a wrap flag and
an ownership flag, and word B as status/length with start-of-frame,
end-of-frame, used, wrap and last-buffer flags.  The concrete bit positions
below are those of the SAM GMAC hardware layout.  RX word 0, bit 0: set when
software owns the descriptor (GMAC has written a fragment into it). -/
def GMAC_RXW0_OWNERSHIP : Nat := 0x1

/-- RX word 0, bit 1: wrap flag marking the last descriptor of the ring. -/
def GMAC_RXW0_WRAP : Nat := 0x2

/-- RX word 0, bits 31:2: the buffer address field. -/
def GMAC_RXW0_ADDR : Nat := 0xfffffffc

/-- RX word 1, bits 12:0: length field (cumulative frame length on the
descriptor carrying end-of-frame). -/
def GMAC_RXW1_LEN : Nat := 0x1fff

/-- RX word 1, bit 14: start-of-frame flag. -/
def GMAC_RXW1_SOF : Nat := 0x4000

/-- RX word 1, bit 15: end-of-frame flag. -/
def GMAC_RXW1_EOF : Nat := 0x8000

/-- TX word 1, bits 13:0: fragment length field. -/
def GMAC_TXW1_LEN : Nat := 0x3fff

/-- TX word 1, bit 15: last-buffer flag (final fragment of a frame). -/
def GMAC_TXW1_LASTBUFFER : Nat := 0x8000

/-- TX word 1, bit 30: wrap flag marking the last descriptor of the ring. -/
def GMAC_TXW1_WRAP : Nat := 0x40000000

/-- TX word 1, bit 31: used flag; set means the descriptor belongs to
software. -/
def GMAC_TXW1_USED : Nat := 0x80000000

/-- 2^32, the modulus of the driver's u32 arithmetic. -/
def U32 : Nat := 4294967296

/-- u32 addition with wrap-around. -/
def add32 (a b : Nat) : Nat := (a + b) % U32

/-- u32 subtraction with wrap-around (operands already reduced mod 2^32 by
construction where used). -/
def sub32 (a b : Nat) : Nat := (a + U32 - b % U32) % U32

/-- MODULO_INC(val, max) from eth_sam_gmac.c: val becomes val+1 if that is
still below max, else 0. -/
def modulo_inc (v m : Nat) : Nat := if v + 1 < m then v + 1 else 0

/-- One hardware descriptor: two machine words (struct gmac_desc). -/
structure Desc where
  w0 : Nat
  w1 : Nat
deriving Repr, DecidableEq

/-- gmac_desc_set_w0 (the dcache_clean side effect is immaterial here). -/
def gmac_desc_set_w0 (d : Desc) (v : Nat) : Desc := { d with w0 := v }

/-- gmac_desc_set_w1. -/
def gmac_desc_set_w1 (d : Desc) (v : Nat) : Desc := { d with w1 := v }

/-- gmac_desc_append_w0: or the value into word 0. -/
def gmac_desc_append_w0 (d : Desc) (v : Nat) : Desc := { d with w0 := d.w0 ||| v }

/-- gmac_desc_append_w1: or the value into word 1. -/
def gmac_desc_append_w1 (d : Desc) (v : Nat) : Desc := { d with w1 := d.w1 ||| v }

/-- struct ring_buf: fixed storage of 32-bit items with head/tail indices.
The len field mirrors rb->len (the C code indexes and wraps with it). -/
structure RingBuf where
  buf : List Nat
  len : Nat
  head : Nat
  tail : Nat
deriving Repr, DecidableEq

/-- ring_buf_reset. -/
def ring_buf_reset (rb : RingBuf) : RingBuf := { rb with head := 0, tail := 0 }

/-- ring_buf_get: take one item from the tail (the C code asserts the ring is
not empty; that precondition appears as a hypothesis where relevant). -/
def ring_buf_get (rb : RingBuf) : Nat × RingBuf :=
  (rb.buf.getD rb.tail 0, { rb with tail := modulo_inc rb.tail rb.len })

/-- ring_buf_put: store one item at the head. -/
def ring_buf_put (rb : RingBuf) (v : Nat) : RingBuf :=
  { rb with buf := rb.buf.set rb.head v, head := modulo_inc rb.head rb.len }

/-! ## RX queue state

The RX side of struct gmac_queue: the descriptor list with its tail index,
the parallel rx_frag_list tracking ring (slot i holds the buffer posted at
descriptor i; the C code uses the ring_buf storage as a plain array indexed
by the descriptor tail, so it is a plain list here), and the
err_rx_frames_dropped statistic. -/
structure RxQueue where
  descs : List Desc
  fragList : List Nat
  tail : Nat
  err_rx_frames_dropped : Nat
deriving Repr, DecidableEq

/-- Helper for rx_descriptors_init: collect the first n allocation results,
failing (like the C loop returning -ENOBUFS) if any of them is none. -/
def takeAddrs : Nat → List (Option Nat) → Option (List Nat)
  | 0, _ => some []
  | _ + 1, [] => none
  | _ + 1, none :: _ => none
  | n + 1, some a :: rest => (takeAddrs n rest).map (a :: ·)

/-- rx_descriptors_init (lines 241-279): reserve one buffer per slot, post
its address with ownership given to the GMAC (bit 0 clear) and status word 0,
then set the wrap bit on the last descriptor.  Returns none on -ENOBUFS
(the freeing of already-reserved buffers has no effect on ring state). -/
def rx_descriptors_init (q : RxQueue) (allocs : List (Option Nat)) :
    Option RxQueue :=
  match takeAddrs q.descs.length allocs with
  | none => none
  | some addrs =>
    let descs := addrs.map (fun a => Desc.mk (a &&& GMAC_RXW0_ADDR) 0)
    let last := q.descs.length - 1
    let descs2 := descs.set last
      (gmac_desc_append_w0 (descs.getD last ⟨0, 0⟩) GMAC_RXW0_WRAP)
    some { q with descs := descs2, fragList := addrs, tail := 0 }

/-- Phase 1 of frame_get (lines 701-717): scan forward from tail while
descriptors are software-owned, looking for an end-of-frame flag.  The C
while-loop is totalised with fuel (frame_get passes the ring length, enough
to examine every slot of the ring once). -/
def scan_complete (descs : List Desc) (len : Nat) : Nat → Nat → Bool
  | _, 0 => false
  | tail, fuel + 1 =>
    let d := descs.getD tail ⟨0, 0⟩
    if d.w0 &&& GMAC_RXW0_OWNERSHIP ≠ 0 then
      if d.w1 &&& GMAC_RXW1_EOF ≠ 0 then true
      else scan_complete descs len (modulo_inc tail len) fuel
    else false

/-- State threaded through one iteration of the frame_get processing loop. -/
structure RxStepState where
  descs : List Desc
  fragList : List Nat
  tail : Nat
  frameOpt : Option (List (Nat × Nat))
  allocs : List (Option Nat)
  dropped : Nat
deriving Repr

/-- One iteration of the frame_get processing loop (lines 739-793), given the
fragment length already computed for this descriptor: read the tracked
buffer, try to replace it with a fresh one (appending the filled fragment to
the frame on success, dropping the frame and keeping the old buffer on
failure or when the frame container is already gone), clear the status word,
and repost the slot to hardware with the wrap flag on the last slot. -/
def process_step (len tail : Nat) (descs : List Desc) (fragList : List Nat)
    (frameOpt : Option (List (Nat × Nat))) (allocs : List (Option Nat))
    (dropped frag_len : Nat) : RxStepState :=
  let frag := fragList.getD tail 0
  let step :
      Option (List (Nat × Nat)) × List Nat × Nat × List (Option Nat) × Nat :=
    match frameOpt, allocs with
    | none, rest => (none, fragList, frag, rest, dropped)
    | some _, [] => (none, fragList, frag, [], dropped + 1)
    | some _, none :: rest => (none, fragList, frag, rest, dropped + 1)
    | some fr, some na :: rest =>
        (some (fr ++ [(frag, frag_len)]), fragList.set tail na, na, rest,
         dropped)
  match step with
  | (fo, fl, fragNew, rest, dr) =>
    let descs1 := descs.set tail (gmac_desc_set_w1 (descs.getD tail ⟨0, 0⟩) 0)
    let wrap := if tail = len - 1 then GMAC_RXW0_WRAP else 0
    let descs2 := descs1.set tail
      (gmac_desc_set_w0 (descs1.getD tail ⟨0, 0⟩)
        ((fragNew &&& GMAC_RXW0_ADDR) ||| wrap))
    ⟨descs2, fl, modulo_inc tail len, fo, rest, dr⟩

/-- Result of frame_get: the updated queue, the assembled frame as an ordered
list of (buffer address, fragment length) pairs (none when no complete frame
was available or the frame was dropped), and the unconsumed allocation
oracle. -/
structure FrameGetResult where
  queue : RxQueue
  frame : Option (List (Nat × Nat))
  remAllocs : List (Option Nat)
deriving Repr, DecidableEq

/-- Phase 2 of frame_get (lines 722-796): walk the complete run again from
tail.  A descriptor without the ownership bit ends the walk; the descriptor
carrying end-of-frame is processed with fragment length equal to the reported
cumulative length minus the bytes already accounted (u32 arithmetic) and ends
the walk; any other descriptor is processed with fragment length
CONFIG_NET_BUF_DATA_SIZE and the walk continues.  Fuel totalises the C
while-loop (frame_get passes the ring length, which covers the longest
possible complete run). -/
def process_loop (bufSize len : Nat) (descs : List Desc) (fragList : List Nat)
    (tail : Nat) (frameOpt : Option (List (Nat × Nat)))
    (allocs : List (Option Nat)) (frame_len dropped : Nat) :
    Nat → FrameGetResult
  | 0 => ⟨⟨descs, fragList, tail, dropped⟩, frameOpt, allocs⟩
  | fuel + 1 =>
    let d := descs.getD tail ⟨0, 0⟩
    if d.w0 &&& GMAC_RXW0_OWNERSHIP = 0 then
      ⟨⟨descs, fragList, tail, dropped⟩, frameOpt, allocs⟩
    else if d.w1 &&& GMAC_RXW1_EOF ≠ 0 then
      let s := process_step len tail descs fragList frameOpt allocs dropped
        (sub32 (d.w1 &&& GMAC_RXW1_LEN) frame_len)
      ⟨⟨s.descs, s.fragList, s.tail, s.dropped⟩, s.frameOpt, s.allocs⟩
    else
      let s := process_step len tail descs fragList frameOpt allocs dropped
        bufSize
      process_loop bufSize len s.descs s.fragList s.tail s.frameOpt s.allocs
        (add32 frame_len bufSize) s.dropped fuel

/-- frame_get (lines 685-801).  bufSize is CONFIG_NET_BUF_DATA_SIZE;
frameAlloc is the outcome of net_pkt_get_reserve_rx (the frame container);
allocs is the oracle of net_pkt_get_frag outcomes.  If phase 1 finds no
complete frame the queue is returned untouched with no frame. -/
def frame_get (bufSize : Nat) (q : RxQueue) (frameAlloc : Bool)
    (allocs : List (Option Nat)) : FrameGetResult :=
  let len := q.descs.length
  if scan_complete q.descs len q.tail len then
    let frameOpt : Option (List (Nat × Nat)) :=
      if frameAlloc then some [] else none
    process_loop bufSize len q.descs q.fragList q.tail frameOpt allocs 0
      q.err_rx_frames_dropped len
  else ⟨q, none, allocs⟩

/-! ## TX queue state

The TX side of struct gmac_queue: the descriptor list with head (next slot
software posts to) and tail (next slot to reclaim), the tx_frames ring of
in-flight frame handles (net_pkt pointers, modelled as Nat handles), the
tx_desc_sem counting semaphore and the err_tx_flushed_count flush counter. -/
structure TxQueue where
  descs : List Desc
  head : Nat
  tail : Nat
  tx_frames : RingBuf
  tx_desc_sem : Nat
  err_tx_flushed_count : Nat
deriving Repr, DecidableEq

/-- tx_descriptors_init (lines 284-302): head and tail to zero, every
descriptor gets address word 0 and status word with the used bit set, the
wrap bit is or-ed into the last descriptor, and the tx_frames ring is
reset. -/
def tx_descriptors_init (q : TxQueue) : TxQueue :=
  let len := q.descs.length
  let descs := List.replicate len (Desc.mk 0 GMAC_TXW1_USED)
  let descs2 := descs.set (len - 1)
    (gmac_desc_append_w1 (descs.getD (len - 1) ⟨0, 0⟩) GMAC_TXW1_WRAP)
  { q with descs := descs2, head := 0, tail := 0,
           tx_frames := ring_buf_reset q.tx_frames }

/-- Outcome of the tx_completed scan. -/
structure TxScanState where
  tail : Nat
  sem : Nat
  tx_frames : RingBuf
  released : List Nat
deriving Repr

/-- The while-loop of tx_completed (lines 409-444): while tail has not caught
up with head, advance tail and give one semaphore unit; on the first
descriptor carrying the last-buffer flag, pop one frame handle from the
tx_frames ring, release it, and stop.  Fuel totalises the loop (tx_completed
passes the ring length, enough for tail to reach head). -/
def tx_completed_loop (descs : List Desc) (len head : Nat) :
    Nat → Nat → RingBuf → List Nat → Nat → TxScanState
  | tail, sem, tf, rel, 0 => ⟨tail, sem, tf, rel⟩
  | tail, sem, tf, rel, fuel + 1 =>
    if tail = head then ⟨tail, sem, tf, rel⟩
    else
      let d := descs.getD tail ⟨0, 0⟩
      let tail2 := modulo_inc tail len
      let sem2 := sem + 1
      if d.w1 &&& GMAC_TXW1_LASTBUFFER ≠ 0 then
        let g := ring_buf_get tf
        ⟨tail2, sem2, g.2, rel ++ [g.1]⟩
      else tx_completed_loop descs len head tail2 sem2 tf rel fuel

/-- tx_completed (lines 392-445): process successfully sent packets.  Returns
the updated queue and the list of frame handles released (net_pkt_unref).
The entry assertion that the descriptor at tail has its used bit set appears
as a hypothesis where relevant; the PTP timestamp path is configured out. -/
def tx_completed (q : TxQueue) : TxQueue × List Nat :=
  let s := tx_completed_loop q.descs q.descs.length q.head q.tail
    q.tx_desc_sem q.tx_frames [] q.descs.length
  ({ q with tail := s.tail, tx_desc_sem := s.sem, tx_frames := s.tx_frames },
   s.released)

/-- The drain loop of tx_error_handler (lines 461-467): release every frame
handle still in the tx_frames ring, advancing tail until it meets head.
Fuel totalises the loop (the handler passes the ring capacity). -/
def tx_flush_loop : RingBuf → List Nat → Nat → RingBuf × List Nat
  | tf, rel, 0 => (tf, rel)
  | tf, rel, fuel + 1 =>
    if tf.tail = tf.head then (tf, rel)
    else
      let pkt := tf.buf.getD tf.tail 0
      tx_flush_loop { tf with tail := modulo_inc tf.tail tf.len }
        (rel ++ [pkt]) fuel

/-- tx_error_handler (lines 450-478): bump the flush counter, drain and
release every in-flight frame handle, reset the semaphore to zero,
reinitialize the TX descriptor list (which also resets the tx_frames ring),
then give the semaphore once per descriptor except one (the reserved
sentinel), leaving it at capacity - 1.  The TXEN register toggles around the
body are hardware-side effects outside this state.  Returns the updated
queue and the list of released frame handles. -/
def tx_error_handler (q : TxQueue) : TxQueue × List Nat :=
  let q1 := { q with err_tx_flushed_count := q.err_tx_flushed_count + 1 }
  let fl := tx_flush_loop q1.tx_frames [] q1.tx_frames.len
  let q2 := { q1 with tx_frames := fl.1 }
  let q3 := { q2 with tx_desc_sem := 0 }
  let q4 := tx_descriptors_init q3
  let q5 := { q4 with tx_desc_sem := q4.tx_desc_sem + (q4.descs.length - 1) }
  (q5, fl.2)

/-! ## TX submission (eth_tx) -/

/-- One fragment of a net_pkt: its data pointer and length. -/
structure NetBuf where
  data : Nat
  len : Nat
deriving Repr, DecidableEq

/-- A net_pkt as eth_tx sees it: the fragment chain and the link-layer
reserve (net_pkt_ll_reserve) pushed into the first fragment. -/
structure Pkt where
  frags : List NetBuf
  ll_reserve : Nat
deriving Repr, DecidableEq

/-- The per-fragment critical section of eth_tx (lines 918-948): if the flush
counter changed since entry, return -EIO leaving the queue untouched;
otherwise write the descriptor address word, write the status word with the
fragment length, the last-buffer flag for the frame's final fragment and the
wrap flag on the ring's last slot (clearing the used bit), and advance
head. -/
def eth_tx_frag_critical (sampled : Nat) (q : TxQueue)
    (fragData fragLen : Nat) (isLast : Bool) : TxQueue × Option Int :=
  if q.err_tx_flushed_count ≠ sampled then (q, some (-5))
  else
    let len := q.descs.length
    let head := q.head
    let descs1 := q.descs.set head
      (gmac_desc_set_w0 (q.descs.getD head ⟨0, 0⟩) fragData)
    let w1 := (fragLen &&& GMAC_TXW1_LEN) |||
      (if isLast then GMAC_TXW1_LASTBUFFER else 0) |||
      (if head = len - 1 then GMAC_TXW1_WRAP else 0)
    let descs2 := descs1.set head
      (gmac_desc_set_w1 (descs1.getD head ⟨0, 0⟩) w1)
    ({ q with descs := descs2, head := modulo_inc head len }, none)

/-- The final critical section of eth_tx (lines 957-972): if the flush
counter changed since entry, return -EIO leaving the queue untouched;
otherwise mark the descriptor after the last posted one as used and push the
frame handle onto the tx_frames ring. -/
def eth_tx_finish_critical (sampled : Nat) (q : TxQueue) (pktId : Nat) :
    TxQueue × Option Int :=
  if q.err_tx_flushed_count ≠ sampled then (q, some (-5))
  else
    let descs := q.descs.set q.head
      (gmac_desc_append_w1 (q.descs.getD q.head ⟨0, 0⟩) GMAC_TXW1_USED)
    ({ q with descs := descs, tx_frames := ring_buf_put q.tx_frames pktId },
     none)

/-- Result of the eth_tx fragment loop. -/
structure EthTxLoopResult where
  queue : TxQueue
  err : Option Int
  intf : List (TxQueue → TxQueue)

/-- The fragment loop of eth_tx (lines 905-952).  Each iteration takes one
semaphore unit (blocking, which cannot fail, is not modelled: the count just
decreases) and then runs the critical section.  Because tx_error_handler may
run from interrupt context between the semaphore take and the irq_lock, an
interference oracle supplies one arbitrary queue transformation per critical
section (identity when the list is exhausted). -/
def eth_tx_loop (sampled : Nat) :
    TxQueue → List NetBuf → List (TxQueue → TxQueue) → EthTxLoopResult
  | q, [], intf => ⟨q, none, intf⟩
  | q, frag :: rest, intf =>
    let q1 := { q with tx_desc_sem := q.tx_desc_sem - 1 }
    let q2 := (intf.headD id) q1
    match eth_tx_frag_critical sampled q2 frag.data frag.len rest.isEmpty with
    | (q3, some e) => ⟨q3, some e, intf.tail⟩
    | (q3, none) => eth_tx_loop sampled q3 rest intf.tail

/-- eth_tx (lines 875-978): sample the flush counter, push the link-layer
header into the first fragment (net_buf_push: data pointer moves back by
ll_reserve, length grows by it), post every fragment through the critical
section, restore the first fragment's original data pointer, then run the
final critical section marking the next descriptor used and accounting the
frame in the tx_frames ring.  Returns the queue, the pkt as the caller sees
it on return, and the return code (0 or -EIO).  The TSTART register write is
a hardware side effect outside this state; the C code asserts a non-empty
fragment chain, so the empty case is immaterial. -/
def eth_tx (q : TxQueue) (pkt : Pkt) (pktId : Nat)
    (intf : List (TxQueue → TxQueue)) : TxQueue × Pkt × Int :=
  let sampled := q.err_tx_flushed_count
  match pkt.frags with
  | [] => (q, pkt, 0)
  | f :: fs =>
    let frag_orig := f.data
    let pushed : NetBuf :=
      { f with data := f.data - pkt.ll_reserve, len := f.len + pkt.ll_reserve }
    let r := eth_tx_loop sampled q (pushed :: fs) intf
    match r.err with
    | some e => (r.queue, { pkt with frags := pushed :: fs }, e)
    | none =>
      let restored : NetBuf := { pushed with data := frag_orig }
      let q1 := (r.intf.headD id) r.queue
      match eth_tx_finish_critical sampled q1 pktId with
      | (q2, some e) => (q2, { pkt with frags := restored :: fs }, e)
      | (q2, none) => (q2, { pkt with frags := restored :: fs }, 0)

/-! ## Invariants and helper predicates -/

/-- A buffer data address satisfying the alignment the driver asserts at
reservation time (rx_buf_addr with no bits outside GMAC_RXW0_ADDR). -/
@[reducible] def Aligned (a : Nat) : Prop := a &&& GMAC_RXW0_ADDR = a

/-- Every tracked buffer address is aligned. -/
@[reducible] def FragsAligned (l : List Nat) : Prop := ∀ a ∈ l, Aligned a

/-- Every buffer the allocation oracle can hand out is aligned. -/
def AllocsAligned (l : List (Option Nat)) : Prop :=
  ∀ a : Nat, some a ∈ l → Aligned a

/-- The tracking-ring invariant of the spec: whenever an RX descriptor is
owned by hardware (ownership bit clear), its address field equals the buffer
address recorded at the same index of the fragment tracking ring. -/
@[reducible] def rx_addr_inv (descs : List Desc) (fragList : List Nat) : Prop :=
  ∀ i, i < descs.length →
    (descs.getD i ⟨0, 0⟩).w0 &&& GMAC_RXW0_OWNERSHIP = 0 →
    (descs.getD i ⟨0, 0⟩).w0 &&& GMAC_RXW0_ADDR = fragList.getD i 0

/-- The tracking-ring invariant as a property of an RX queue state. -/
@[reducible] def RxInv (q : RxQueue) : Prop := rx_addr_inv q.descs q.fragList

/-! ## Arithmetic and list helper lemmas -/

theorem lor_land_right (x y z : Nat) :
    (x ||| y) &&& z = (x &&& z) ||| (y &&& z) := by
  apply Nat.eq_of_testBit_eq
  intro i
  simp [Nat.testBit_lor, Nat.testBit_land, Bool.and_or_distrib_right]

theorem add32_eq (a b : Nat) (h : a + b < U32) : add32 a b = a + b := by
  simpa [add32] using Nat.mod_eq_of_lt h

theorem sub32_eq (a b : Nat) (ha : a < U32) (hb : b ≤ a) :
    sub32 a b = a - b := by
  have hb2 : b % U32 = b := Nat.mod_eq_of_lt (lt_of_le_of_lt hb ha)
  have h1 : a + U32 - b = (a - b) + U32 := by omega
  have h2 : a - b < U32 := lt_of_le_of_lt (Nat.sub_le a b) ha
  simp [sub32, hb2, h1, Nat.add_mod_right, Nat.mod_eq_of_lt h2]

theorem modulo_inc_mod (a m : Nat) (h : 0 < m) :
    modulo_inc (a % m) m = (a + 1) % m := by
  unfold modulo_inc
  rcases Nat.lt_or_ge (a % m + 1) m with h1 | h1
  · rw [if_pos h1]
    conv_rhs => rw [Nat.add_mod]
    simp [Nat.mod_eq_of_lt h1]
  · have h2 : a % m < m := Nat.mod_lt _ h
    have h3 : a % m + 1 = m := by omega
    rw [if_neg (by omega)]
    conv_rhs => rw [Nat.add_mod]
    simp [h3]

theorem modulo_inc_eq (v m : Nat) (h : v < m) :
    modulo_inc v m = (v + 1) % m := by
  have hm : 0 < m := by omega
  have := modulo_inc_mod v m hm
  rwa [Nat.mod_eq_of_lt h] at this

theorem modulo_inc_lt (v m : Nat) (h : 0 < m) : modulo_inc v m < m := by
  unfold modulo_inc
  split <;> omega

theorem getD_set_self {α : Type} (l : List α) (i : Nat) (a d : α)
    (h : i < l.length) : (l.set i a).getD i d = a := by
  simp [List.getD, List.getElem?_set_eq_of_lt, h]

theorem getD_set_other {α : Type} (l : List α) (i j : Nat) (a d : α)
    (h : i ≠ j) : (l.set i a).getD j d = l.getD j d := by
  simp [List.getD, List.getElem?_set_ne, h]

theorem getD_map_lt (l : List Nat) (f : Nat → Desc) (i : Nat)
    (h : i < l.length) (d : Desc) (d0 : Nat) :
    (l.map f).getD i d = f (l.getD i d0) := by
  simp [List.getD, List.getElem?_map, List.getElem?_eq_getElem, h]

/-- Indices strictly inside a forward walk of fewer than len steps do not
revisit the starting slot. -/
theorem idx_step_ne (t j len : Nat) (ht : t < len) (hj0 : 0 < j)
    (hj : j < len) : (t + j) % len ≠ t := by
  intro h
  rcases Nat.lt_or_ge (t + j) len with h1 | h1
  · rw [Nat.mod_eq_of_lt h1] at h
    omega
  · have h2 : t + j < 2 * len := by omega
    have h3 : (t + j) % len = t + j - len := by
      rw [Nat.mod_eq_sub_mod h1, Nat.mod_eq_of_lt (by omega)]
    omega

/-! ## Bit-level facts about the RX descriptor words -/

theorem repost_w0_own (a w : Nat) (hw : w = 0 ∨ w = GMAC_RXW0_WRAP) :
    ((a &&& GMAC_RXW0_ADDR) ||| w) &&& GMAC_RXW0_OWNERSHIP = 0 := by
  rw [lor_land_right, Nat.land_assoc]
  rcases hw with h | h <;> subst h <;>
    simp [GMAC_RXW0_ADDR, GMAC_RXW0_OWNERSHIP, GMAC_RXW0_WRAP]

theorem repost_w0_addr (a w : Nat) (hw : w = 0 ∨ w = GMAC_RXW0_WRAP) :
    ((a &&& GMAC_RXW0_ADDR) ||| w) &&& GMAC_RXW0_ADDR = a &&& GMAC_RXW0_ADDR := by
  rw [lor_land_right, Nat.land_assoc, Nat.and_self]
  rcases hw with h | h <;> subst h
  · rw [Nat.zero_and, Nat.or_zero]
  · rw [(by decide : GMAC_RXW0_WRAP &&& GMAC_RXW0_ADDR = 0), Nat.or_zero]

theorem repost_w0_wrap (a : Nat) :
    ((a &&& GMAC_RXW0_ADDR) ||| GMAC_RXW0_WRAP) &&& GMAC_RXW0_WRAP =
      GMAC_RXW0_WRAP := by
  rw [lor_land_right, Nat.land_assoc,
    (by decide : GMAC_RXW0_ADDR &&& GMAC_RXW0_WRAP = 0), Nat.and_zero,
    Nat.zero_or, Nat.and_self]

theorem nowrap_w0 (a : Nat) :
    (a &&& GMAC_RXW0_ADDR) &&& GMAC_RXW0_WRAP = 0 := by
  rw [Nat.land_assoc,
    (by decide : GMAC_RXW0_ADDR &&& GMAC_RXW0_WRAP = 0), Nat.and_zero]

theorem rxw1_len_le (w : Nat) : w &&& GMAC_RXW1_LEN ≤ GMAC_RXW1_LEN :=
  Nat.and_le_right

/-! ## Phase-1 scan characterisation -/

theorem mod_shift (t j len : Nat) :
    ((t + 1) % len + j) % len = (t + (j + 1)) % len := by
  rw [Nat.mod_add_mod, Nat.add_assoc, Nat.add_comm 1 j]

theorem scan_complete_succ (descs : List Desc) (len tail fuel : Nat) :
    scan_complete descs len tail (fuel + 1) =
      if (descs.getD tail ⟨0, 0⟩).w0 &&& GMAC_RXW0_OWNERSHIP ≠ 0 then
        if (descs.getD tail ⟨0, 0⟩).w1 &&& GMAC_RXW1_EOF ≠ 0 then true
        else scan_complete descs len (modulo_inc tail len) fuel
      else false := rfl

theorem scan_complete_false (descs : List Desc) (len : Nat) :
    ∀ k tail fuel, tail < len →
    (∀ j, j < k →
      (descs.getD ((tail + j) % len) ⟨0, 0⟩).w0 &&& GMAC_RXW0_OWNERSHIP ≠ 0 ∧
      (descs.getD ((tail + j) % len) ⟨0, 0⟩).w1 &&& GMAC_RXW1_EOF = 0) →
    (descs.getD ((tail + k) % len) ⟨0, 0⟩).w0 &&& GMAC_RXW0_OWNERSHIP = 0 →
    scan_complete descs len tail fuel = false := by
  intro k
  induction k with
  | zero =>
    intro tail fuel ht _ hstop
    rw [Nat.add_zero, Nat.mod_eq_of_lt ht] at hstop
    cases fuel with
    | zero => rfl
    | succ fuel => rw [scan_complete_succ, if_neg (by simpa using hstop)]
  | succ k ih =>
    intro tail fuel ht hrun hstop
    cases fuel with
    | zero => rfl
    | succ fuel =>
      have h0 := hrun 0 (Nat.succ_pos k)
      rw [Nat.add_zero, Nat.mod_eq_of_lt ht] at h0
      rw [scan_complete_succ, if_pos h0.1, if_neg (by simpa using h0.2),
        modulo_inc_eq tail len ht]
      have hlen : 0 < len := by omega
      apply ih ((tail + 1) % len) fuel (Nat.mod_lt _ hlen)
      · intro j hj
        rw [mod_shift]
        exact hrun (j + 1) (by omega)
      · rw [mod_shift]
        rwa [show tail + (k + 1) = tail + (k + 1) from rfl] at hstop

theorem scan_complete_true (descs : List Desc) (len : Nat) :
    ∀ k tail fuel, tail < len → k < fuel →
    (∀ j, j ≤ k →
      (descs.getD ((tail + j) % len) ⟨0, 0⟩).w0 &&& GMAC_RXW0_OWNERSHIP ≠ 0) →
    (∀ j, j < k →
      (descs.getD ((tail + j) % len) ⟨0, 0⟩).w1 &&& GMAC_RXW1_EOF = 0) →
    (descs.getD ((tail + k) % len) ⟨0, 0⟩).w1 &&& GMAC_RXW1_EOF ≠ 0 →
    scan_complete descs len tail fuel = true := by
  intro k
  induction k with
  | zero =>
    intro tail fuel ht hfuel hown _ heof
    rw [Nat.add_zero, Nat.mod_eq_of_lt ht] at heof
    have h0 := hown 0 (le_refl 0)
    rw [Nat.add_zero, Nat.mod_eq_of_lt ht] at h0
    cases fuel with
    | zero => omega
    | succ fuel => rw [scan_complete_succ, if_pos h0, if_pos heof]
  | succ k ih =>
    intro tail fuel ht hfuel hown hneof heof
    cases fuel with
    | zero => omega
    | succ fuel =>
      have h0 := hown 0 (Nat.zero_le _)
      rw [Nat.add_zero, Nat.mod_eq_of_lt ht] at h0
      have he0 := hneof 0 (Nat.succ_pos k)
      rw [Nat.add_zero, Nat.mod_eq_of_lt ht] at he0
      rw [scan_complete_succ, if_pos h0, if_neg (by simpa using he0),
        modulo_inc_eq tail len ht]
      have hlen : 0 < len := by omega
      apply ih ((tail + 1) % len) fuel (Nat.mod_lt _ hlen) (by omega)
      · intro j hj
        rw [mod_shift]
        exact hown (j + 1) (by omega)
      · intro j hj
        rw [mod_shift]
        exact hneof (j + 1) (by omega)
      · rw [mod_shift]
        exact heof

/-! ## The tracking-ring invariant across operations -/

/-- Wrap value picked by process_step. -/
def rx_wrap (tail len : Nat) : Nat := if tail = len - 1 then GMAC_RXW0_WRAP else 0

theorem rx_wrap_cases (tail len : Nat) :
    rx_wrap tail len = 0 ∨ rx_wrap tail len = GMAC_RXW0_WRAP := by
  unfold rx_wrap; split <;> simp

theorem process_step_none (len tail : Nat) (descs : List Desc)
    (fragList : List Nat) (allocs : List (Option Nat)) (dropped frag_len : Nat)
    (ht : tail < descs.length) :
    process_step len tail descs fragList none allocs dropped frag_len =
      ⟨descs.set tail
         ⟨(fragList.getD tail 0 &&& GMAC_RXW0_ADDR) ||| rx_wrap tail len, 0⟩,
       fragList, modulo_inc tail len, none, allocs, dropped⟩ := by
  unfold process_step rx_wrap
  simp [gmac_desc_set_w0, gmac_desc_set_w1, List.set_set,
    List.getElem?_set_eq_of_lt _ ht]

theorem process_step_empty (len tail : Nat) (descs : List Desc)
    (fragList : List Nat) (fr : List (Nat × Nat)) (dropped frag_len : Nat)
    (ht : tail < descs.length) :
    process_step len tail descs fragList (some fr) [] dropped frag_len =
      ⟨descs.set tail
         ⟨(fragList.getD tail 0 &&& GMAC_RXW0_ADDR) ||| rx_wrap tail len, 0⟩,
       fragList, modulo_inc tail len, none, [], dropped + 1⟩ := by
  unfold process_step rx_wrap
  simp [gmac_desc_set_w0, gmac_desc_set_w1, List.set_set,
    List.getElem?_set_eq_of_lt _ ht]

theorem process_step_fail (len tail : Nat) (descs : List Desc)
    (fragList : List Nat) (fr : List (Nat × Nat)) (rest : List (Option Nat))
    (dropped frag_len : Nat) (ht : tail < descs.length) :
    process_step len tail descs fragList (some fr) (none :: rest) dropped
        frag_len =
      ⟨descs.set tail
         ⟨(fragList.getD tail 0 &&& GMAC_RXW0_ADDR) ||| rx_wrap tail len, 0⟩,
       fragList, modulo_inc tail len, none, rest, dropped + 1⟩ := by
  unfold process_step rx_wrap
  simp [gmac_desc_set_w0, gmac_desc_set_w1, List.set_set,
    List.getElem?_set_eq_of_lt _ ht]

theorem process_step_ok (len tail : Nat) (descs : List Desc)
    (fragList : List Nat) (fr : List (Nat × Nat)) (na : Nat)
    (rest : List (Option Nat)) (dropped frag_len : Nat)
    (ht : tail < descs.length) :
    process_step len tail descs fragList (some fr) (some na :: rest) dropped
        frag_len =
      ⟨descs.set tail ⟨(na &&& GMAC_RXW0_ADDR) ||| rx_wrap tail len, 0⟩,
       fragList.set tail na, modulo_inc tail len,
       some (fr ++ [(fragList.getD tail 0, frag_len)]), rest, dropped⟩ := by
  unfold process_step rx_wrap
  simp [gmac_desc_set_w0, gmac_desc_set_w1, List.set_set,
    List.getElem?_set_eq_of_lt _ ht]

theorem getD_mem (l : List Nat) (i d : Nat) (h : i < l.length) :
    l.getD i d ∈ l := by
  rw [List.getD_eq_getElem l d h]
  exact List.getElem_mem h

theorem rx_addr_inv_update (descs : List Desc) (fragList fl : List Nat)
    (tail len b : Nat) (hd : descs.length = len) (ht : tail < len)
    (hb : Aligned b) (hbt : fl.getD tail 0 = b)
    (hfl : ∀ j, j ≠ tail → fl.getD j 0 = fragList.getD j 0)
    (hinv : rx_addr_inv descs fragList) :
    rx_addr_inv
      (descs.set tail ⟨(b &&& GMAC_RXW0_ADDR) ||| rx_wrap tail len, 0⟩) fl := by
  intro i hi hown
  rw [List.length_set, hd] at hi
  by_cases hit : i = tail
  · subst hit
    rw [getD_set_self _ _ _ _ (by omega)]
    rw [getD_set_self _ _ _ _ (by omega)] at hown
    rw [repost_w0_addr _ _ (rx_wrap_cases _ len), hb, hbt]
  · rw [getD_set_other _ _ _ _ _ (fun h => hit h.symm)] at hown ⊢
    rw [hfl i hit]
    exact hinv i (by omega) hown

theorem process_step_inv (len tail : Nat) (descs : List Desc)
    (fragList : List Nat) (fo : Option (List (Nat × Nat)))
    (allocs : List (Option Nat)) (dropped frag_len : Nat)
    (hd : descs.length = len) (hf : fragList.length = len) (ht : tail < len)
    (hal : FragsAligned fragList) (haa : AllocsAligned allocs)
    (hinv : rx_addr_inv descs fragList) :
    (process_step len tail descs fragList fo allocs dropped frag_len).descs.length = len ∧
    (process_step len tail descs fragList fo allocs dropped frag_len).fragList.length = len ∧
    (process_step len tail descs fragList fo allocs dropped frag_len).tail < len ∧
    FragsAligned (process_step len tail descs fragList fo allocs dropped frag_len).fragList ∧
    AllocsAligned (process_step len tail descs fragList fo allocs dropped frag_len).allocs ∧
    rx_addr_inv (process_step len tail descs fragList fo allocs dropped frag_len).descs
      (process_step len tail descs fragList fo allocs dropped frag_len).fragList := by
  have htd : tail < descs.length := by omega
  have htf : tail < fragList.length := by omega
  have hlen : 0 < len := by omega
  have halb : Aligned (fragList.getD tail 0) := hal _ (getD_mem _ _ _ htf)
  cases fo with
  | none =>
    rw [process_step_none len tail descs fragList allocs dropped frag_len htd]
    exact ⟨by simpa using hd, hf, modulo_inc_lt _ _ hlen, hal, haa,
      rx_addr_inv_update descs fragList fragList tail len _ hd ht halb rfl
        (fun _ _ => rfl) hinv⟩
  | some fr =>
    cases allocs with
    | nil =>
      rw [process_step_empty len tail descs fragList fr dropped frag_len htd]
      exact ⟨by simpa using hd, hf, modulo_inc_lt _ _ hlen, hal,
        fun a ha => absurd ha (List.not_mem_nil _),
        rx_addr_inv_update descs fragList fragList tail len _ hd ht halb rfl
          (fun _ _ => rfl) hinv⟩
    | cons a rest =>
      have haa2 : AllocsAligned rest := fun x hx => haa x (List.mem_cons_of_mem a hx)
      cases a with
      | none =>
        rw [process_step_fail len tail descs fragList fr rest dropped frag_len htd]
        exact ⟨by simpa using hd, hf, modulo_inc_lt _ _ hlen, hal, haa2,
          rx_addr_inv_update descs fragList fragList tail len _ hd ht halb rfl
            (fun _ _ => rfl) hinv⟩
      | some na =>
        have hna : Aligned na := haa na (List.mem_cons_self _ _)
        rw [process_step_ok len tail descs fragList fr na rest dropped frag_len htd]
        refine ⟨by simpa using hd, by simpa using hf, modulo_inc_lt _ _ hlen,
          ?_, haa2, ?_⟩
        · intro x hx
          rcases List.mem_or_eq_of_mem_set hx with h | h
          · exact hal x h
          · subst h; exact hna
        · exact rx_addr_inv_update descs fragList (fragList.set tail na) tail
            len na hd ht hna (getD_set_self _ _ _ _ htf)
            (fun j hj => getD_set_other _ _ _ _ _ (fun h => hj h.symm)) hinv

theorem process_loop_succ (bufSize len : Nat) (descs : List Desc)
    (fragList : List Nat) (tail : Nat) (fo : Option (List (Nat × Nat)))
    (allocs : List (Option Nat)) (flen dropped fuel : Nat) :
    process_loop bufSize len descs fragList tail fo allocs flen dropped
        (fuel + 1) =
      if (descs.getD tail ⟨0, 0⟩).w0 &&& GMAC_RXW0_OWNERSHIP = 0 then
        ⟨⟨descs, fragList, tail, dropped⟩, fo, allocs⟩
      else if (descs.getD tail ⟨0, 0⟩).w1 &&& GMAC_RXW1_EOF ≠ 0 then
        (fun s => ⟨⟨s.descs, s.fragList, s.tail, s.dropped⟩, s.frameOpt,
            s.allocs⟩)
          (process_step len tail descs fragList fo allocs dropped
            (sub32 ((descs.getD tail ⟨0, 0⟩).w1 &&& GMAC_RXW1_LEN) flen))
      else
        (fun s => process_loop bufSize len s.descs s.fragList s.tail
            s.frameOpt s.allocs (add32 flen bufSize) s.dropped fuel)
          (process_step len tail descs fragList fo allocs dropped bufSize) :=
  rfl

theorem process_loop_inv (bufSize len : Nat) :
    ∀ fuel (descs : List Desc) (fragList : List Nat) tail fo allocs flen
      dropped,
    descs.length = len → fragList.length = len → tail < len →
    FragsAligned fragList → AllocsAligned allocs →
    rx_addr_inv descs fragList →
    (process_loop bufSize len descs fragList tail fo allocs flen dropped
        fuel).queue.descs.length = len ∧
    (process_loop bufSize len descs fragList tail fo allocs flen dropped
        fuel).queue.fragList.length = len ∧
    FragsAligned (process_loop bufSize len descs fragList tail fo allocs flen
        dropped fuel).queue.fragList ∧
    rx_addr_inv (process_loop bufSize len descs fragList tail fo allocs flen
        dropped fuel).queue.descs
      (process_loop bufSize len descs fragList tail fo allocs flen dropped
        fuel).queue.fragList := by
  intro fuel
  induction fuel with
  | zero =>
    intro descs fragList tail fo allocs flen dropped hd hf _ hal _ hinv
    exact ⟨hd, hf, hal, hinv⟩
  | succ fuel ih =>
    intro descs fragList tail fo allocs flen dropped hd hf ht hal haa hinv
    rw [process_loop_succ]
    by_cases h1 : (descs.getD tail ⟨0, 0⟩).w0 &&& GMAC_RXW0_OWNERSHIP = 0
    · rw [if_pos h1]
      exact ⟨hd, hf, hal, hinv⟩
    · rw [if_neg h1]
      by_cases h2 : (descs.getD tail ⟨0, 0⟩).w1 &&& GMAC_RXW1_EOF ≠ 0
      · rw [if_pos h2]
        have hs := process_step_inv len tail descs fragList fo allocs dropped
          (sub32 ((descs.getD tail ⟨0, 0⟩).w1 &&& GMAC_RXW1_LEN) flen)
          hd hf ht hal haa hinv
        exact ⟨hs.1, hs.2.1, hs.2.2.2.1, hs.2.2.2.2.2⟩
      · rw [if_neg h2]
        have hs := process_step_inv len tail descs fragList fo allocs dropped
          bufSize hd hf ht hal haa hinv
        exact ih _ _ _ _ _ _ _ hs.1 hs.2.1 hs.2.2.1 hs.2.2.2.1 hs.2.2.2.2.1
          hs.2.2.2.2.2

theorem frame_get_preserves_inv (bufSize : Nat) (q : RxQueue)
    (frameAlloc : Bool) (allocs : List (Option Nat))
    (hf : q.fragList.length = q.descs.length)
    (ht : q.tail < q.descs.length)
    (hal : FragsAligned q.fragList) (haa : AllocsAligned allocs)
    (hinv : RxInv q) :
    RxInv (frame_get bufSize q frameAlloc allocs).queue := by
  simp only [frame_get]
  by_cases hs : scan_complete q.descs q.descs.length q.tail q.descs.length =
    true
  · rw [if_pos hs]
    exact (process_loop_inv bufSize q.descs.length q.descs.length q.descs
      q.fragList q.tail _ allocs 0 q.err_rx_frames_dropped rfl hf ht hal haa
      hinv).2.2.2
  · rw [if_neg hs]
    exact hinv

theorem takeAddrs_some :
    ∀ (n : Nat) (allocs : List (Option Nat)) (addrs : List Nat),
    takeAddrs n allocs = some addrs →
    addrs.length = n ∧ ∀ a ∈ addrs, some a ∈ allocs := by
  intro n
  induction n with
  | zero =>
    intro allocs addrs h
    simp [takeAddrs] at h
    subst h
    simp
  | succ n ih =>
    intro allocs addrs h
    match allocs with
    | [] => simp [takeAddrs] at h
    | none :: rest => simp [takeAddrs] at h
    | some a :: rest =>
      simp only [takeAddrs, Option.map_eq_some'] at h
      obtain ⟨t, ht, rfl⟩ := h
      obtain ⟨hlen, hmem⟩ := ih rest t ht
      constructor
      · simp [hlen]
      · intro x hx
        rcases List.mem_cons.mp hx with h | h
        · subst h; exact List.mem_cons_self _ _
        · exact List.mem_cons_of_mem _ (hmem x h)

theorem rx_descriptors_init_inv (q : RxQueue) (allocs : List (Option Nat))
    (q' : RxQueue) (haa : AllocsAligned allocs)
    (hinit : rx_descriptors_init q allocs = some q') :
    RxInv q' ∧ FragsAligned q'.fragList ∧
    q'.fragList.length = q'.descs.length ∧ q'.tail = 0 := by
  unfold rx_descriptors_init at hinit
  set len := q.descs.length with hlen
  cases hta : takeAddrs len allocs with
  | none => rw [hta] at hinit; exact absurd hinit (by simp)
  | some addrs =>
    rw [hta] at hinit
    simp only [Option.some.injEq] at hinit
    obtain ⟨halen, hamem⟩ := takeAddrs_some len allocs addrs hta
    have haligned : FragsAligned addrs := fun a ha => haa a (hamem a ha)
    subst hinit
    have hmaplen : (addrs.map
        (fun a => Desc.mk (a &&& GMAC_RXW0_ADDR) 0)).length = len := by
      simp [halen]
    refine ⟨?_, haligned, by simp [halen], rfl⟩
    intro i hi _
    simp only [List.length_set, List.length_map, halen] at hi
    have hia : i < addrs.length := by rw [halen]; exact hi
    by_cases hil : i = len - 1
    · subst hil
      have hlast : len - 1 < (addrs.map
          (fun a => Desc.mk (a &&& GMAC_RXW0_ADDR) 0)).length := by
        simp only [List.length_map, halen]; omega
      rw [getD_set_self _ _ _ _ hlast]
      rw [getD_map_lt addrs (fun a => Desc.mk (a &&& GMAC_RXW0_ADDR) 0)
        (len - 1) (by rw [halen]; omega) ⟨0, 0⟩ 0]
      unfold gmac_desc_append_w0
      simp only []
      rw [repost_w0_addr _ _ (Or.inr rfl)]
      exact haligned _ (getD_mem _ _ _ (by rw [halen]; omega))
    · rw [getD_set_other _ _ _ _ _ (fun h => hil h.symm)]
      rw [getD_map_lt addrs (fun a => Desc.mk (a &&& GMAC_RXW0_ADDR) 0)
        i hia ⟨0, 0⟩ 0]
      have hgoal : (addrs.getD i 0 &&& GMAC_RXW0_ADDR) &&& GMAC_RXW0_ADDR =
          addrs.getD i 0 := by
        rw [Nat.land_assoc, Nat.and_self]
        exact haligned _ (getD_mem _ _ _ hia)
      exact hgoal

/-! ## Fragment lengths of a complete RX run -/

theorem rxw1_len_lt_u32 (w : Nat) : w &&& GMAC_RXW1_LEN < U32 :=
  lt_of_le_of_lt (rxw1_len_le w) (by decide)

theorem append_map_range_succ {α : Type} (acc : List α) (f : Nat → α)
    (n : Nat) :
    acc ++ (List.range (n + 1)).map f =
      (acc ++ [f 0]) ++ (List.range n).map (fun j => f (j + 1)) := by
  rw [List.range_succ_eq_map, List.map_cons, List.map_map, List.append_cons]
  rfl

theorem process_loop_run (bufSize len : Nat) :
    ∀ k (descs : List Desc) (fragList : List Nat) (tail : Nat)
      (acc : List (Nat × Nat)) (fresh : List Nat) (rest : List (Option Nat))
      (flen dropped fuel : Nat),
    descs.length = len → tail < len → k < len → k < fuel →
    fresh.length = k + 1 →
    (∀ j, j ≤ k →
      (descs.getD ((tail + j) % len) ⟨0, 0⟩).w0 &&& GMAC_RXW0_OWNERSHIP ≠ 0) →
    (∀ j, j < k →
      (descs.getD ((tail + j) % len) ⟨0, 0⟩).w1 &&& GMAC_RXW1_EOF = 0) →
    (descs.getD ((tail + k) % len) ⟨0, 0⟩).w1 &&& GMAC_RXW1_EOF ≠ 0 →
    flen + k * bufSize ≤
      (descs.getD ((tail + k) % len) ⟨0, 0⟩).w1 &&& GMAC_RXW1_LEN →
    (process_loop bufSize len descs fragList tail (some acc)
        (fresh.map some ++ rest) flen dropped fuel).frame =
      some (acc ++ (List.range (k + 1)).map (fun j =>
        (fragList.getD ((tail + j) % len) 0,
         if j < k then bufSize
         else ((descs.getD ((tail + k) % len) ⟨0, 0⟩).w1 &&& GMAC_RXW1_LEN)
           - (flen + k * bufSize)))) := by
  intro k
  induction k with
  | zero =>
    intro descs fragList tail acc fresh rest flen dropped fuel hd ht _ hfuel
      hfresh hown _ heof hrep
    rw [Nat.add_zero, Nat.mod_eq_of_lt ht] at heof hrep
    have hown0 := hown 0 (le_refl 0)
    rw [Nat.add_zero, Nat.mod_eq_of_lt ht] at hown0
    match fresh, hfresh with
    | [na], _ =>
      match fuel, hfuel with
      | fuel + 1, _ =>
        rw [process_loop_succ, if_neg hown0, if_pos heof]
        have htd : tail < descs.length := by omega
        rw [List.map_cons, List.map_nil, List.singleton_append,
          process_step_ok len tail descs fragList acc na rest dropped _ htd]
        rw [sub32_eq _ _ (rxw1_len_lt_u32 _) (by omega)]
        rw [(by decide : List.range 1 = [0])]
        simp [Nat.mod_eq_of_lt ht]
  | succ k ih =>
    intro descs fragList tail acc fresh rest flen dropped fuel hd ht hk hfuel
      hfresh hown hneof heof hrep
    have hown0 := hown 0 (Nat.zero_le _)
    rw [Nat.add_zero, Nat.mod_eq_of_lt ht] at hown0
    have hne0 := hneof 0 (Nat.succ_pos k)
    rw [Nat.add_zero, Nat.mod_eq_of_lt ht] at hne0
    have hlen : 0 < len := by omega
    have hreple : (descs.getD ((tail + (k + 1)) % len) ⟨0, 0⟩).w1 &&&
        GMAC_RXW1_LEN ≤ GMAC_RXW1_LEN := rxw1_len_le _
    have hLlt : GMAC_RXW1_LEN < U32 := by decide
    rw [Nat.succ_mul] at hrep
    match fresh, hfresh with
    | na :: fresh, hfresh =>
      have hfresh2 : fresh.length = k + 1 := by simpa using hfresh
      match fuel, hfuel with
      | fuel + 1, hfuel =>
        have hfuel2 : k < fuel := by omega
        rw [process_loop_succ, if_neg hown0, if_neg (by simpa using hne0)]
        have htd : tail < descs.length := by omega
        rw [List.map_cons, List.cons_append,
          process_step_ok len tail descs fragList acc na
            (fresh.map some ++ rest) dropped bufSize htd]
        simp only []
        rw [modulo_inc_eq tail len ht]
        rw [add32_eq flen bufSize (by omega)]
        have hshift : ∀ j, j ≤ k →
            ((tail + 1) % len + j) % len ≠ tail := by
          intro j hj
          rw [mod_shift]
          exact idx_step_ne tail (j + 1) len ht (Nat.succ_pos j) (by omega)
        have hgetset : ∀ j, j ≤ k →
            ((descs.set tail ⟨(na &&& GMAC_RXW0_ADDR) |||
                rx_wrap tail len, 0⟩).getD (((tail + 1) % len + j) % len)
              ⟨0, 0⟩) =
            descs.getD ((tail + (j + 1)) % len) ⟨0, 0⟩ := by
          intro j hj
          rw [getD_set_other _ _ _ _ _ (fun h => (hshift j hj) h.symm),
            mod_shift]
        rw [ih (descs.set tail ⟨(na &&& GMAC_RXW0_ADDR) |||
              rx_wrap tail len, 0⟩)
            (fragList.set tail na) ((tail + 1) % len)
            (acc ++ [(fragList.getD tail 0, bufSize)]) fresh rest
            (flen + bufSize) dropped fuel
            (by simpa using hd) (Nat.mod_lt _ hlen) (by omega) hfuel2 hfresh2
            (fun j hj => by rw [hgetset j hj]; exact hown (j + 1) (by omega))
            (fun j hj => by rw [hgetset j (by omega)]
                            exact hneof (j + 1) (by omega))
            (by rw [hgetset k (le_refl k)]; exact heof)
            (by rw [hgetset k (le_refl k)]; omega)]
        congr 1
        conv_rhs => rw [append_map_range_succ]
        congr 1
        · congr 2
          simp [Nat.mod_eq_of_lt ht]
        · apply List.map_congr_left
          intro j hj
          rw [List.mem_range] at hj
          have hj2 : j ≤ k := by omega
          rw [hgetset k (le_refl k)]
          rw [getD_set_other _ _ _ _ _ (fun h => (hshift j hj2) h.symm),
            mod_shift]
          by_cases hjk : j < k
          · rw [if_pos hjk, if_pos (by omega : j + 1 < k + 1)]
          · rw [if_neg hjk, if_neg (by omega : ¬ j + 1 < k + 1)]
            rw [Nat.succ_mul]
            congr 1
            omega

theorem frame_get_fragment_lengths (bufSize : Nat) (q : RxQueue) (k : Nat)
    (fresh : List Nat) (rest : List (Option Nat))
    (ht : q.tail < q.descs.length) (hk : k < q.descs.length)
    (hfresh : fresh.length = k + 1)
    (hown : ∀ j, j ≤ k →
      (q.descs.getD ((q.tail + j) % q.descs.length) ⟨0, 0⟩).w0 &&&
        GMAC_RXW0_OWNERSHIP ≠ 0)
    (hneof : ∀ j, j < k →
      (q.descs.getD ((q.tail + j) % q.descs.length) ⟨0, 0⟩).w1 &&&
        GMAC_RXW1_EOF = 0)
    (heof : (q.descs.getD ((q.tail + k) % q.descs.length) ⟨0, 0⟩).w1 &&&
      GMAC_RXW1_EOF ≠ 0)
    (hrep : k * bufSize ≤
      (q.descs.getD ((q.tail + k) % q.descs.length) ⟨0, 0⟩).w1 &&&
        GMAC_RXW1_LEN) :
    (frame_get bufSize q true (fresh.map some ++ rest)).frame =
      some ((List.range (k + 1)).map (fun j =>
        (q.fragList.getD ((q.tail + j) % q.descs.length) 0,
         if j < k then bufSize
         else ((q.descs.getD ((q.tail + k) % q.descs.length) ⟨0, 0⟩).w1 &&&
             GMAC_RXW1_LEN) - k * bufSize))) := by
  simp only [frame_get]
  rw [if_pos (scan_complete_true q.descs q.descs.length k q.tail
    q.descs.length ht hk hown hneof heof)]
  rw [if_pos trivial]
  have := process_loop_run bufSize q.descs.length k q.descs q.fragList q.tail
    [] fresh rest 0 q.err_rx_frames_dropped q.descs.length rfl ht hk hk hfresh
    hown hneof heof (by omega)
  rw [this]
  simp

/-! ## TX completion scan characterisation -/

theorem tx_completed_loop_succ (descs : List Desc) (len head tail sem : Nat)
    (tf : RingBuf) (rel : List Nat) (fuel : Nat) :
    tx_completed_loop descs len head tail sem tf rel (fuel + 1) =
      if tail = head then ⟨tail, sem, tf, rel⟩
      else if (descs.getD tail ⟨0, 0⟩).w1 &&& GMAC_TXW1_LASTBUFFER ≠ 0 then
        ⟨modulo_inc tail len, sem + 1, (ring_buf_get tf).2,
         rel ++ [(ring_buf_get tf).1]⟩
      else tx_completed_loop descs len head (modulo_inc tail len) (sem + 1)
        tf rel fuel := rfl

theorem tx_completed_loop_run (descs : List Desc) (len head : Nat) :
    ∀ k tail sem (tf : RingBuf) (rel : List Nat) (fuel : Nat),
    tail < len → k < fuel →
    (∀ j, j ≤ k → (tail + j) % len ≠ head) →
    (∀ j, j < k →
      (descs.getD ((tail + j) % len) ⟨0, 0⟩).w1 &&&
        GMAC_TXW1_LASTBUFFER = 0) →
    (descs.getD ((tail + k) % len) ⟨0, 0⟩).w1 &&& GMAC_TXW1_LASTBUFFER ≠ 0 →
    tx_completed_loop descs len head tail sem tf rel fuel =
      ⟨(tail + k + 1) % len, sem + (k + 1), (ring_buf_get tf).2,
       rel ++ [(ring_buf_get tf).1]⟩ := by
  intro k
  induction k with
  | zero =>
    intro tail sem tf rel fuel ht hfuel hne _ hlast
    rw [Nat.add_zero, Nat.mod_eq_of_lt ht] at hlast
    have hne0 := hne 0 (le_refl 0)
    rw [Nat.add_zero, Nat.mod_eq_of_lt ht] at hne0
    match fuel, hfuel with
    | fuel + 1, _ =>
      rw [tx_completed_loop_succ, if_neg hne0, if_pos hlast,
        modulo_inc_eq tail len ht, Nat.add_zero]
  | succ k ih =>
    intro tail sem tf rel fuel ht hfuel hne hnl hlast
    have hne0 := hne 0 (Nat.zero_le _)
    rw [Nat.add_zero, Nat.mod_eq_of_lt ht] at hne0
    have hnl0 := hnl 0 (Nat.succ_pos k)
    rw [Nat.add_zero, Nat.mod_eq_of_lt ht] at hnl0
    have hlen : 0 < len := by omega
    match fuel, hfuel with
    | fuel + 1, hfuel =>
      rw [tx_completed_loop_succ, if_neg hne0, if_neg (by simpa using hnl0),
        modulo_inc_eq tail len ht]
      rw [ih ((tail + 1) % len) (sem + 1) tf rel fuel (Nat.mod_lt _ hlen)
        (by omega)
        (fun j hj => by rw [mod_shift]; exact hne (j + 1) (by omega))
        (fun j hj => by rw [mod_shift]; exact hnl (j + 1) (by omega))
        (by rw [mod_shift]; exact hlast)]
      have h1 : ((tail + 1) % len + k + 1) % len = (tail + (k + 1) + 1) % len := by
        rw [Nat.add_assoc, Nat.mod_add_mod]
        congr 1
        omega
      have h2 : sem + 1 + (k + 1) = sem + (k + 1 + 1) := by omega
      rw [h1, h2]

/-! ## TX error recovery: second invocation -/

theorem tx_flush_loop_empty (tf : RingBuf) (rel : List Nat) (n : Nat)
    (h : tf.tail = tf.head) : tx_flush_loop tf rel n = (tf, rel) := by
  cases n <;> simp [tx_flush_loop, h]

theorem tx_error_handler_twice (q : TxQueue) :
    (tx_error_handler (tx_error_handler q).1).2 = [] ∧
    (tx_error_handler (tx_error_handler q).1).1 =
      { (tx_error_handler q).1 with
        err_tx_flushed_count :=
          (tx_error_handler q).1.err_tx_flushed_count + 1 } := by
  constructor
  · simp [tx_error_handler, tx_descriptors_init, ring_buf_reset,
      tx_flush_loop_empty]
  · simp [tx_error_handler, tx_descriptors_init, ring_buf_reset,
      tx_flush_loop_empty]

/-! ## eth_tx: error codes and the header-push round trip -/

theorem eth_tx_frag_critical_err (sampled : Nat) (q : TxQueue)
    (a b : Nat) (c : Bool) (e : Int)
    (h : (eth_tx_frag_critical sampled q a b c).2 = some e) : e = -5 := by
  unfold eth_tx_frag_critical at h
  split at h
  · have := h.symm
    simp only [Option.some.injEq] at this
    omega
  · simp at h

theorem eth_tx_loop_err (sampled : Nat) :
    ∀ (frags : List NetBuf) (q : TxQueue)
      (intf : List (TxQueue → TxQueue)) (e : Int),
    (eth_tx_loop sampled q frags intf).err = some e → e = -5 := by
  intro frags
  induction frags with
  | nil => intro q intf e h; simp [eth_tx_loop] at h
  | cons f rest ih =>
    intro q intf e h
    rw [eth_tx_loop] at h
    rcases hc : eth_tx_frag_critical sampled
      ((intf.headD id) { q with tx_desc_sem := q.tx_desc_sem - 1 })
      f.data f.len rest.isEmpty with ⟨q3, e2⟩
    rw [hc] at h
    cases e2 with
    | none => exact ih q3 intf.tail e h
    | some e3 =>
      simp only [] at h
      have he3 : e3 = -5 := eth_tx_frag_critical_err sampled _ _ _ _ e3
        (by rw [hc])
      have he : e3 = e := by injection h
      omega

/-- C10: whenever eth_tx returns 0 (success), the data pointer of the
packet's first fragment is the same on return as it was at entry: the
link-layer header push done at the start of submission (net_buf_push by the
ll reserve) is undone before the function returns. -/
theorem C10_eth_tx_restores_data_pointer (q : TxQueue) (pkt : Pkt)
    (pktId : Nat)
    (intf : List (TxQueue → TxQueue))
    (h : (eth_tx q pkt pktId intf).2.2 = 0) :
    ((eth_tx q pkt pktId intf).2.1.frags.headD ⟨0, 0⟩).data =
      (pkt.frags.headD ⟨0, 0⟩).data := by
  simp only [eth_tx] at h ⊢
  rcases hfr : pkt.frags with _ | ⟨f, fs⟩
  · simp only []
    rw [hfr]
  · rw [hfr] at h
    simp only [] at h ⊢
    set pushed : NetBuf :=
      { f with data := f.data - pkt.ll_reserve,
               len := f.len + pkt.ll_reserve } with hpushed
    set r := eth_tx_loop q.err_tx_flushed_count q (pushed :: fs) intf with hr
    rcases herr : r.err with _ | e
    · simp only [] at h ⊢
      rcases hfin : eth_tx_finish_critical q.err_tx_flushed_count
          ((r.intf.headD id) r.queue) pktId with ⟨q2, e2⟩
      rcases e2 with _ | e2 <;> simp
    · rw [herr] at h
      have he : e = 0 := by simpa using h
      have h5 : e = -5 := eth_tx_loop_err _ _ _ _ _ herr
      rw [he] at h5
      exact absurd h5 (by decide)

/-! ## Claim theorems -/

theorem getD_replicate (n : Nat) (a d : Desc) (i : Nat) (h : i < n) :
    (List.replicate n a).getD i d = a := by
  rw [List.getD_eq_getElem _ d (by simpa using h)]
  simp

theorem land_own_zero (a : Nat) :
    (a &&& GMAC_RXW0_ADDR) &&& GMAC_RXW0_OWNERSHIP = 0 := by
  rw [Nat.land_assoc, (by decide : GMAC_RXW0_ADDR &&& GMAC_RXW0_OWNERSHIP = 0),
    Nat.and_zero]

/-- C9: after ring reset, rx_descriptors_init (when it succeeds) leaves the
RX tail at zero with every descriptor hardware-owned (ownership bit clear),
status word zero, and the wrap flag on exactly the last slot; and
tx_descriptors_init leaves head and tail at zero with every descriptor's used
bit set and the wrap flag on exactly the last slot. -/
theorem C9_reset_state :
    (∀ (q : RxQueue) (allocs : List (Option Nat)) (q' : RxQueue),
      0 < q.descs.length → rx_descriptors_init q allocs = some q' →
      q'.tail = 0 ∧
      ∀ i, i < q'.descs.length →
        (q'.descs.getD i ⟨0, 0⟩).w0 &&& GMAC_RXW0_OWNERSHIP = 0 ∧
        (q'.descs.getD i ⟨0, 0⟩).w1 = 0 ∧
        ((q'.descs.getD i ⟨0, 0⟩).w0 &&& GMAC_RXW0_WRAP ≠ 0 ↔
          i = q'.descs.length - 1)) ∧
    (∀ q : TxQueue, 0 < q.descs.length →
      (tx_descriptors_init q).head = 0 ∧ (tx_descriptors_init q).tail = 0 ∧
      ∀ i, i < (tx_descriptors_init q).descs.length →
        ((tx_descriptors_init q).descs.getD i ⟨0, 0⟩).w1 &&&
          GMAC_TXW1_USED ≠ 0 ∧
        (((tx_descriptors_init q).descs.getD i ⟨0, 0⟩).w1 &&&
            GMAC_TXW1_WRAP ≠ 0 ↔
          i = (tx_descriptors_init q).descs.length - 1)) := by
  constructor
  · intro q allocs q' hlen hinit
    unfold rx_descriptors_init at hinit
    set len := q.descs.length with hl
    cases hta : takeAddrs len allocs with
    | none => rw [hta] at hinit; exact absurd hinit (by simp)
    | some addrs =>
      rw [hta] at hinit
      simp only [Option.some.injEq] at hinit
      obtain ⟨halen, _⟩ := takeAddrs_some len allocs addrs hta
      subst hinit
      refine ⟨rfl, ?_⟩
      intro i hi
      simp only [List.length_set, List.length_map, halen] at hi ⊢
      have hia : i < addrs.length := by rw [halen]; exact hi
      by_cases hil : i = len - 1
      · subst hil
        have hlast : len - 1 < (addrs.map
            (fun a => Desc.mk (a &&& GMAC_RXW0_ADDR) 0)).length := by
          simp only [List.length_map, halen]; omega
        rw [getD_set_self _ _ _ _ hlast]
        rw [getD_map_lt addrs (fun a => Desc.mk (a &&& GMAC_RXW0_ADDR) 0)
          (len - 1) (by rw [halen]; omega) ⟨0, 0⟩ 0]
        unfold gmac_desc_append_w0
        refine ⟨repost_w0_own _ _ (Or.inr rfl), rfl, ?_⟩
        rw [repost_w0_wrap]
        simp [GMAC_RXW0_WRAP]
      · rw [getD_set_other _ _ _ _ _ (fun h => hil h.symm)]
        rw [getD_map_lt addrs (fun a => Desc.mk (a &&& GMAC_RXW0_ADDR) 0)
          i hia ⟨0, 0⟩ 0]
        refine ⟨land_own_zero _, rfl, ?_⟩
        rw [nowrap_w0]
        simp [hil]
  · intro q hlen
    unfold tx_descriptors_init
    refine ⟨rfl, rfl, ?_⟩
    intro i hi
    simp only [List.length_set, List.length_replicate] at hi ⊢
    by_cases hil : i = q.descs.length - 1
    · subst hil
      have hlast : q.descs.length - 1 <
          (List.replicate q.descs.length
            (Desc.mk 0 GMAC_TXW1_USED)).length := by
        simp only [List.length_replicate]; omega
      rw [getD_set_self _ _ _ _ hlast]
      rw [getD_replicate _ _ _ _ (by omega)]
      unfold gmac_desc_append_w1
      constructor
      · decide
      · exact ⟨fun _ => rfl, fun _ => by decide⟩
    · rw [getD_set_other _ _ _ _ _ (fun h => hil h.symm)]
      rw [getD_replicate _ _ _ _ (by omega)]
      constructor
      · decide
      · constructor
        · intro h
          exact absurd (by decide : GMAC_TXW1_USED &&& GMAC_TXW1_WRAP = 0) h
        · intro h
          exact absurd h hil

/-- Ring state used to witness the reset-state claim (RX side, before
initialization). -/
def C9rxPre : RxQueue :=
  { descs := [⟨0, 0⟩, ⟨0, 0⟩], fragList := [], tail := 5,
    err_rx_frames_dropped := 0 }

/-- The RX ring state produced by rx_descriptors_init on C9rxPre with
buffers at 64 and 128. -/
def C9rxPost : RxQueue :=
  { descs := [⟨64, 0⟩, ⟨130, 0⟩], fragList := [64, 128], tail := 0,
    err_rx_frames_dropped := 0 }

/-- Ring state used to witness the reset-state claim (TX side). -/
def C9tx : TxQueue :=
  { descs := [⟨9, 9⟩, ⟨9, 9⟩], head := 1, tail := 1,
    tx_frames := ⟨[3], 1, 0, 0⟩, tx_desc_sem := 0,
    err_tx_flushed_count := 0 }

theorem C9_reset_state_witness :
    rx_descriptors_init C9rxPre [some 64, some 128] = some C9rxPost ∧
    (C9rxPost.tail = 0 ∧
     ∀ i, i < C9rxPost.descs.length →
       (C9rxPost.descs.getD i ⟨0, 0⟩).w0 &&& GMAC_RXW0_OWNERSHIP = 0 ∧
       (C9rxPost.descs.getD i ⟨0, 0⟩).w1 = 0 ∧
       ((C9rxPost.descs.getD i ⟨0, 0⟩).w0 &&& GMAC_RXW0_WRAP ≠ 0 ↔
         i = C9rxPost.descs.length - 1)) ∧
    ((tx_descriptors_init C9tx).head = 0 ∧ (tx_descriptors_init C9tx).tail = 0 ∧
     ∀ i, i < (tx_descriptors_init C9tx).descs.length →
       ((tx_descriptors_init C9tx).descs.getD i ⟨0, 0⟩).w1 &&&
         GMAC_TXW1_USED ≠ 0 ∧
       (((tx_descriptors_init C9tx).descs.getD i ⟨0, 0⟩).w1 &&&
           GMAC_TXW1_WRAP ≠ 0 ↔
         i = (tx_descriptors_init C9tx).descs.length - 1)) :=
  ⟨by decide,
   C9_reset_state.1 C9rxPre [some 64, some 128] C9rxPost (by decide)
     (by decide),
   C9_reset_state.2 C9tx (by decide)⟩

/-- C1: the tracking-ring invariant (buffer address recorded in the fragment
ring equals the descriptor address field wherever the descriptor is
hardware-owned) is established by rx_descriptors_init and preserved by every
call to frame_get, including the paths where the frame container or a
replacement buffer cannot be allocated and the frame is dropped, given the
structural well-formedness the driver asserts (equal ring lengths, in-range
tail, aligned buffer addresses). -/
theorem C1_rx_tracking_invariant :
    (∀ (q : RxQueue) (allocs : List (Option Nat)) (q' : RxQueue),
      AllocsAligned allocs → rx_descriptors_init q allocs = some q' →
      RxInv q') ∧
    (∀ (bufSize : Nat) (q : RxQueue) (frameAlloc : Bool)
      (allocs : List (Option Nat)),
      q.fragList.length = q.descs.length → q.tail < q.descs.length →
      FragsAligned q.fragList → AllocsAligned allocs → RxInv q →
      RxInv (frame_get bufSize q frameAlloc allocs).queue) :=
  ⟨fun q allocs q' haa h => (rx_descriptors_init_inv q allocs q' haa h).1,
   fun bufSize q fa allocs hf ht hal haa hinv =>
     frame_get_preserves_inv bufSize q fa allocs hf ht hal haa hinv⟩

/-- Pre-initialization RX queue for the C1 witness. -/
def C1qPre : RxQueue :=
  { descs := [⟨0, 0⟩, ⟨0, 0⟩, ⟨0, 0⟩], fragList := [], tail := 0,
    err_rx_frames_dropped := 0 }

/-- The queue rx_descriptors_init produces from C1qPre. -/
def C1qInit : RxQueue :=
  { descs := [⟨64, 0⟩, ⟨128, 0⟩, ⟨194, 0⟩], fragList := [64, 128, 192],
    tail := 0, err_rx_frames_dropped := 0 }

/-- An RX queue holding one complete 3-fragment frame, for the C1 witness. -/
def C1qRun : RxQueue :=
  { descs := [⟨101, 0x4000⟩, ⟨201, 0⟩, ⟨303, 0x80A8⟩],
    fragList := [100, 200, 300], tail := 0, err_rx_frames_dropped := 0 }

theorem C1_rx_tracking_invariant_witness :
    RxInv C1qInit ∧ RxInv (frame_get 64 C1qRun true [some 400]).queue :=
  ⟨C1_rx_tracking_invariant.1 C1qPre [some 64, some 128, some 192] C1qInit
     (by intro a ha
         simp only [List.mem_cons, List.not_mem_nil, or_false] at ha
         rcases ha with h | h | h <;> (injection h with h; subst h; decide))
     (by decide),
   C1_rx_tracking_invariant.2 64 C1qRun true [some 400] (by decide)
     (by decide) (by decide)
     (by intro a ha
         simp only [List.mem_cons, List.not_mem_nil, or_false] at ha
         injection ha with h
         subst h
         decide)
     (by decide)⟩

/-- C2: on an RX ring holding three software-owned descriptors with buffers
at 100, 200 and 300, end-of-frame and cumulative length 168 on the third,
and fresh buffers 400, 500, 600 available, frame_get assembles one frame of
fragments (100, 64), (200, 64), (300, 40) whose lengths sum to 168, consumes
exactly the 3 posted buffers into the fragment chain, consumes exactly 3
fresh buffers, and installs them into the descriptor and tracking rings. -/
theorem C2_rx_roundtrip_168 :
    frame_get 64
      { descs := [⟨101, 0x4000⟩, ⟨201, 0⟩, ⟨303, 0x80A8⟩],
        fragList := [100, 200, 300], tail := 0, err_rx_frames_dropped := 0 }
      true [some 400, some 500, some 600] =
      { queue := { descs := [⟨400, 0⟩, ⟨500, 0⟩, ⟨602, 0⟩],
                   fragList := [400, 500, 600], tail := 0,
                   err_rx_frames_dropped := 0 },
        frame := some [(100, 64), (200, 64), (300, 40)],
        remAllocs := [] } ∧
    [(100, 64), (200, 64), (300, 40)].foldr
      (fun (p : Nat × Nat) acc => p.2 + acc) 0 = 168 := by
  decide

/-- C3: when no end-of-frame flag appears among the software-owned
descriptors scanned forward from tail before a hardware-owned (not yet
written) descriptor is reached, frame_get returns no frame and the queue --
tail, every descriptor word, and every tracking-ring entry -- is returned
exactly as it was, with the allocation oracle unconsumed. -/
theorem C3_incomplete_frame_untouched (bufSize : Nat) (q : RxQueue)
    (frameAlloc : Bool) (allocs : List (Option Nat)) (k : Nat)
    (ht : q.tail < q.descs.length)
    (hrun : ∀ j, j < k →
      (q.descs.getD ((q.tail + j) % q.descs.length) ⟨0, 0⟩).w0 &&&
        GMAC_RXW0_OWNERSHIP ≠ 0 ∧
      (q.descs.getD ((q.tail + j) % q.descs.length) ⟨0, 0⟩).w1 &&&
        GMAC_RXW1_EOF = 0)
    (hstop : (q.descs.getD ((q.tail + k) % q.descs.length) ⟨0, 0⟩).w0 &&&
      GMAC_RXW0_OWNERSHIP = 0) :
    frame_get bufSize q frameAlloc allocs = ⟨q, none, allocs⟩ := by
  simp only [frame_get]
  rw [scan_complete_false q.descs q.descs.length k q.tail q.descs.length ht
    hrun hstop]
  rfl

/-- RX queue with an in-progress (incomplete) frame for the C3 witness: the
first descriptor is still hardware-owned. -/
def C3q : RxQueue :=
  { descs := [⟨100, 0⟩, ⟨201, 0⟩], fragList := [100, 200], tail := 0,
    err_rx_frames_dropped := 0 }

theorem C3_incomplete_frame_untouched_witness :
    C3q.tail < C3q.descs.length ∧
    frame_get 64 C3q true [some 400] = ⟨C3q, none, [some 400]⟩ :=
  ⟨by decide,
   C3_incomplete_frame_untouched 64 C3q true [some 400] 0 (by decide)
     (fun j hj => absurd hj (by omega)) (by decide)⟩

/-- C4: on the same 3-fragment complete frame as the round-trip scenario,
if fresh-buffer acquisition fails (on the first, second or third fragment),
frame_get returns no frame, increments err_rx_frames_dropped from 0 to 1,
advances tail past all 3 descriptors (back to slot 0 on this ring of 3), and
leaves every processed descriptor with status word 0 and the ownership bit
clear (returned to hardware), with the restored buffer posted at each slot
(the fresh buffer where one was obtained, the old buffer otherwise). -/
theorem C4_alloc_failure_drops_frame :
    frame_get 64
      { descs := [⟨101, 0x4000⟩, ⟨201, 0⟩, ⟨303, 0x80A8⟩],
        fragList := [100, 200, 300], tail := 0, err_rx_frames_dropped := 0 }
      true [some 400, none] =
      { queue := { descs := [⟨400, 0⟩, ⟨200, 0⟩, ⟨302, 0⟩],
                   fragList := [400, 200, 300], tail := 0,
                   err_rx_frames_dropped := 1 },
        frame := none, remAllocs := [] } ∧
    frame_get 64
      { descs := [⟨101, 0x4000⟩, ⟨201, 0⟩, ⟨303, 0x80A8⟩],
        fragList := [100, 200, 300], tail := 0, err_rx_frames_dropped := 0 }
      true [none] =
      { queue := { descs := [⟨100, 0⟩, ⟨200, 0⟩, ⟨302, 0⟩],
                   fragList := [100, 200, 300], tail := 0,
                   err_rx_frames_dropped := 1 },
        frame := none, remAllocs := [] } ∧
    frame_get 64
      { descs := [⟨101, 0x4000⟩, ⟨201, 0⟩, ⟨303, 0x80A8⟩],
        fragList := [100, 200, 300], tail := 0, err_rx_frames_dropped := 0 }
      true [some 400, some 500, none] =
      { queue := { descs := [⟨400, 0⟩, ⟨500, 0⟩, ⟨302, 0⟩],
                   fragList := [400, 500, 300], tail := 0,
                   err_rx_frames_dropped := 1 },
        frame := none, remAllocs := [] } := by
  decide

/-- C5: whenever the flush counter observed inside a critical section of
eth_tx differs from the value sampled at entry, both the per-fragment
critical section and the final critical section return -EIO with the queue
exactly as it was: no descriptor word is written, head does not advance, and
no frame handle is pushed onto the tx_frames ring. -/
theorem C5_flush_counter_aborts (sampled : Nat) (q : TxQueue)
    (fragData fragLen : Nat) (isLast : Bool) (pktId : Nat)
    (h : q.err_tx_flushed_count ≠ sampled) :
    eth_tx_frag_critical sampled q fragData fragLen isLast =
      (q, some (-5)) ∧
    eth_tx_finish_critical sampled q pktId = (q, some (-5)) :=
  ⟨by unfold eth_tx_frag_critical; rw [if_pos h],
   by unfold eth_tx_finish_critical; rw [if_pos h]⟩

/-- TX queue whose flush counter has moved past the sampled value, for the
C5 witness. -/
def C5q : TxQueue :=
  { descs := [⟨0, GMAC_TXW1_USED⟩], head := 0, tail := 0,
    tx_frames := ⟨[0], 1, 0, 0⟩, tx_desc_sem := 0,
    err_tx_flushed_count := 1 }

theorem C5_flush_counter_aborts_witness :
    C5q.err_tx_flushed_count ≠ 0 ∧
    (eth_tx_frag_critical 0 C5q 100 50 true = (C5q, some (-5)) ∧
     eth_tx_finish_critical 0 C5q 7 = (C5q, some (-5))) :=
  ⟨by decide, C5_flush_counter_aborts 0 C5q 100 50 true 7 (by decide)⟩

/-- TX queue refuting the per-descriptor used-bit scan condition: slot 0 is
used (so the entry assertion of tx_completed holds) but slot 1 is not, and
head is at 2. -/
def C6q : TxQueue :=
  { descs := [⟨0, GMAC_TXW1_USED⟩, ⟨0, 0⟩, ⟨0, 0⟩], head := 2, tail := 0,
    tx_frames := ⟨[0], 1, 0, 0⟩, tx_desc_sem := 0,
    err_tx_flushed_count := 0 }

/-- Counterexample to C6 as stated: the tx_completed scan does not stop at
the first descriptor whose used bit is clear.  On C6q the descriptor at
slot 1 has its used bit clear, yet the scan walks past it up to head,
advancing tail to 2 and releasing two semaphore units (one of them for the
unused descriptor), because the loop condition in the code is tail != head,
not the used bit. -/
theorem C6_counterexample_scan_past_unused :
    (C6q.descs.getD C6q.tail ⟨0, 0⟩).w1 &&& GMAC_TXW1_USED ≠ 0 ∧
    (C6q.descs.getD 1 ⟨0, 0⟩).w1 &&& GMAC_TXW1_USED = 0 ∧
    (tx_completed C6q).1.tail = 2 ∧
    (tx_completed C6q).1.tx_desc_sem = 2 := by decide

/-- C6 (amended): the tx_completed scan proceeds forward from tail while
tail has not caught up with head (the per-descriptor used bit is not
re-checked; only the first descriptor's used bit is asserted), releases
exactly one flow-controller unit per descriptor scanned, pops and releases
exactly one in-flight frame handle at the first descriptor carrying the
last-buffer flag, and stops right after that descriptor. -/
theorem C6_tx_completed_scan (q : TxQueue) (k : Nat)
    (ht : q.tail < q.descs.length) (hk : k < q.descs.length)
    (hused : (q.descs.getD q.tail ⟨0, 0⟩).w1 &&& GMAC_TXW1_USED ≠ 0)
    (hne : ∀ j, j ≤ k → (q.tail + j) % q.descs.length ≠ q.head)
    (hnl : ∀ j, j < k →
      (q.descs.getD ((q.tail + j) % q.descs.length) ⟨0, 0⟩).w1 &&&
        GMAC_TXW1_LASTBUFFER = 0)
    (hl : (q.descs.getD ((q.tail + k) % q.descs.length) ⟨0, 0⟩).w1 &&&
      GMAC_TXW1_LASTBUFFER ≠ 0) :
    (tx_completed q).1.tail = (q.tail + k + 1) % q.descs.length ∧
    (tx_completed q).1.tx_desc_sem = q.tx_desc_sem + (k + 1) ∧
    (tx_completed q).2 = [q.tx_frames.buf.getD q.tx_frames.tail 0] ∧
    (tx_completed q).1.tx_frames =
      { q.tx_frames with
        tail := modulo_inc q.tx_frames.tail q.tx_frames.len } := by
  unfold tx_completed
  rw [tx_completed_loop_run q.descs q.descs.length q.head k q.tail
    q.tx_desc_sem q.tx_frames [] q.descs.length ht hk hne hnl hl]
  exact ⟨rfl, rfl, by simp [ring_buf_get], by simp [ring_buf_get]⟩

/-- TX queue holding one completed 2-fragment frame (last-buffer flag on
slot 1), for the amended C6 witness. -/
def C6qa : TxQueue :=
  { descs := [⟨0, GMAC_TXW1_USED⟩,
              ⟨0, GMAC_TXW1_USED ||| GMAC_TXW1_LASTBUFFER⟩, ⟨0, 0⟩],
    head := 2, tail := 0, tx_frames := ⟨[77, 0], 2, 1, 0⟩,
    tx_desc_sem := 0, err_tx_flushed_count := 0 }

theorem C6_tx_completed_scan_witness :
    (C6qa.descs.getD C6qa.tail ⟨0, 0⟩).w1 &&& GMAC_TXW1_USED ≠ 0 ∧
    ((tx_completed C6qa).1.tail = (C6qa.tail + 1 + 1) % C6qa.descs.length ∧
     (tx_completed C6qa).1.tx_desc_sem = C6qa.tx_desc_sem + (1 + 1) ∧
     (tx_completed C6qa).2 =
       [C6qa.tx_frames.buf.getD C6qa.tx_frames.tail 0] ∧
     (tx_completed C6qa).1.tx_frames =
       { C6qa.tx_frames with
         tail := modulo_inc C6qa.tx_frames.tail C6qa.tx_frames.len }) :=
  ⟨by decide,
   C6_tx_completed_scan C6qa 1 (by decide) (by decide) (by decide)
     (fun j hj => by
       have : j = 0 ∨ j = 1 := by omega
       rcases this with h | h <;> subst h <;> decide)
     (fun j hj => by
       have : j = 0 := by omega
       subst this
       decide)
     (by decide)⟩

/-- C7: running TX error recovery twice with no submissions in between
yields the same recovery state as running it once -- an empty in-flight
frame ring (head = tail = 0), the semaphore reseeded to TX ring capacity
minus one, descriptor head and tail at zero -- the whole queue differs from
the single-run state only in the flush counter it increments, and the second
run releases no frame handle at all, so no handle is released more than once
across the two calls. -/
theorem C7_tx_error_recovery_idempotent (q : TxQueue) :
    (tx_error_handler (tx_error_handler q).1).2 = [] ∧
    (tx_error_handler (tx_error_handler q).1).1 =
      { (tx_error_handler q).1 with
        err_tx_flushed_count :=
          (tx_error_handler q).1.err_tx_flushed_count + 1 } ∧
    (tx_error_handler (tx_error_handler q).1).1.tx_frames.tail =
      (tx_error_handler (tx_error_handler q).1).1.tx_frames.head ∧
    (tx_error_handler (tx_error_handler q).1).1.tx_desc_sem =
      q.descs.length - 1 ∧
    (tx_error_handler (tx_error_handler q).1).1.head = 0 ∧
    (tx_error_handler (tx_error_handler q).1).1.tail = 0 := by
  refine ⟨(tx_error_handler_twice q).1, (tx_error_handler_twice q).2,
    ?_, ?_, ?_, ?_⟩ <;>
    simp [tx_error_handler, tx_descriptors_init, ring_buf_reset,
      tx_flush_loop_empty]

/-- The fragment-length rule exactly as the specification words it, for
comparison with the code: each fragment's length is the ring-reported
cumulative length minus the bytes already accounted for earlier fragments,
except the final fragment (the one carrying end-of-frame), which uses the
raw reported length. -/
def frag_len_per_spec (isFinal : Bool) (reported accounted : Nat) : Nat :=
  if isFinal then reported else reported - accounted

/-- RX queue refuting the claimed fragment-length rule: two software-owned
descriptors; the non-final one reports length 0 in its length field, the
final one (end-of-frame) reports 100. -/
def C8q : RxQueue :=
  { descs := [⟨101, 0x4000⟩, ⟨203, 0x8064⟩], fragList := [100, 200],
    tail := 0, err_rx_frames_dropped := 0 }

/-- Counterexample to C8 as stated: on C8q frame_get produces fragment
lengths 64 (the fixed buffer size, not the reported length 0 minus 0 bytes
accounted) and 36 (the reported length 100 minus the 64 bytes already
accounted, not the raw reported length 100), so both branches of the claimed
rule disagree with the code. -/
theorem C8_counterexample_length_rule :
    (frame_get 64 C8q true [some 400, some 500]).frame =
      some [(100, 64), (200, 36)] ∧
    frag_len_per_spec false
      ((C8q.descs.getD 0 ⟨0, 0⟩).w1 &&& GMAC_RXW1_LEN) 0 ≠ 64 ∧
    frag_len_per_spec true
      ((C8q.descs.getD 1 ⟨0, 0⟩).w1 &&& GMAC_RXW1_LEN) 64 ≠ 36 := by decide

/-- C8 (amended): when frame_get walks a confirmed complete run of k+1
fragments, every non-final fragment's length is the fixed buffer size
CONFIG_NET_BUF_DATA_SIZE (the ring-reported length is not consulted), and
the final fragment (the one carrying end-of-frame) gets the ring-reported
cumulative length minus the bytes already accounted for earlier
fragments. -/
theorem C8_fragment_length_rule (bufSize : Nat) (q : RxQueue) (k : Nat)
    (fresh : List Nat) (rest : List (Option Nat))
    (ht : q.tail < q.descs.length) (hk : k < q.descs.length)
    (hfresh : fresh.length = k + 1)
    (hown : ∀ j, j ≤ k →
      (q.descs.getD ((q.tail + j) % q.descs.length) ⟨0, 0⟩).w0 &&&
        GMAC_RXW0_OWNERSHIP ≠ 0)
    (hneof : ∀ j, j < k →
      (q.descs.getD ((q.tail + j) % q.descs.length) ⟨0, 0⟩).w1 &&&
        GMAC_RXW1_EOF = 0)
    (heof : (q.descs.getD ((q.tail + k) % q.descs.length) ⟨0, 0⟩).w1 &&&
      GMAC_RXW1_EOF ≠ 0)
    (hrep : k * bufSize ≤
      (q.descs.getD ((q.tail + k) % q.descs.length) ⟨0, 0⟩).w1 &&&
        GMAC_RXW1_LEN) :
    (frame_get bufSize q true (fresh.map some ++ rest)).frame =
      some ((List.range (k + 1)).map (fun j =>
        (q.fragList.getD ((q.tail + j) % q.descs.length) 0,
         if j < k then bufSize
         else ((q.descs.getD ((q.tail + k) % q.descs.length) ⟨0, 0⟩).w1 &&&
             GMAC_RXW1_LEN) - k * bufSize))) :=
  frame_get_fragment_lengths bufSize q k fresh rest ht hk hfresh hown hneof
    heof hrep

/-- RX queue with one complete 3-fragment frame for the amended C8
witness. -/
def C8qa : RxQueue :=
  { descs := [⟨101, 0x4000⟩, ⟨201, 0⟩, ⟨303, 0x80A8⟩],
    fragList := [100, 200, 300], tail := 0, err_rx_frames_dropped := 0 }

theorem C8_fragment_length_rule_witness :
    2 * 64 ≤
      ((C8qa.descs.getD ((C8qa.tail + 2) % C8qa.descs.length) ⟨0, 0⟩).w1 &&&
        GMAC_RXW1_LEN) ∧
    (frame_get 64 C8qa true ([400, 500, 600].map some ++ [])).frame =
      some [(100, 64), (200, 64), (300, 40)] := by
  constructor
  · decide
  · have h := C8_fragment_length_rule 64 C8qa 2 [400, 500, 600] []
      (by decide) (by decide) (by decide)
      (fun j hj => by
        have : j = 0 ∨ j = 1 ∨ j = 2 := by omega
        rcases this with h | h | h <;> subst h <;> decide)
      (fun j hj => by
        have : j = 0 ∨ j = 1 := by omega
        rcases this with h | h <;> subst h <;> decide)
      (by decide) (by decide)
    rw [h]
    decide

/-- TX queue with room for two fragments, for the C10 witness. -/
def C10q : TxQueue :=
  { descs := [⟨0, GMAC_TXW1_USED⟩, ⟨0, GMAC_TXW1_USED⟩,
              ⟨0, GMAC_TXW1_USED ||| GMAC_TXW1_WRAP⟩],
    head := 0, tail := 0, tx_frames := ⟨[0, 0, 0], 3, 0, 0⟩,
    tx_desc_sem := 2, err_tx_flushed_count := 0 }

/-- Two-fragment packet with a 14-byte link-layer reserve, for the C10
witness. -/
def C10pkt : Pkt := { frags := [⟨1000, 50⟩, ⟨2000, 30⟩], ll_reserve := 14 }

theorem C10_eth_tx_restores_data_pointer_witness :
    (eth_tx C10q C10pkt 77 []).2.2 = 0 ∧
    ((eth_tx C10q C10pkt 77 []).2.1.frags.headD ⟨0, 0⟩).data =
      (C10pkt.frags.headD ⟨0, 0⟩).data :=
  ⟨by decide, C10_eth_tx_restores_data_pointer C10q C10pkt 77 [] (by decide)⟩
